import Mathlib

/-!
Verification of `process_openb_dir.py` from the kubernetes-scheduler-simulator
repository: rack-label assignment for node records, topology-spread-constraint
injection for pod records, and the directory-level orchestrator.

Python values loaded from the YAML files are modelled by the inductive type
`Yaml`; Python dicts are insertion-ordered association lists (`Dict`), with
`dictGet` / `dictSet` / `dictSetdefault` mirroring `d[k]`, `d[k] = v` and
`d.setdefault(k, v)`.  Python exceptions are modelled with `Except PyErr`.
-/

/-- A parsed YAML/Python value: None, bool, int, str, list, or dict.
Dicts keep insertion order, as Python dicts do. -/
inductive Yaml where
  | nullV : Yaml
  | boolV : Bool → Yaml
  | intV : Int → Yaml
  | strV : String → Yaml
  | arr : List Yaml → Yaml
  | map : List (String × Yaml) → Yaml

/-- A Python dict with string keys: an insertion-ordered association list. -/
abbrev Dict := List (String × Yaml)

/-- Python exceptions that the modelled code can raise. -/
inductive PyErr where
  /-- `ZeroDivisionError`, raised by `%` with zero right operand. -/
  | zeroDivision : PyErr
  /-- `TypeError` / `AttributeError`, raised when a value that is not a dict
  is used as one. -/
  | typeError : PyErr
  deriving DecidableEq

/-- Python dict lookup `d[k]` / `d.get(k)`; the first binding wins. -/
def dictGet : Dict → String → Option Yaml
  | [], _ => none
  | (k', v) :: d, k => if k' = k then some v else dictGet d k

/-- Python dict store `d[k] = v`: update in place if the key is present
(keeping its position), otherwise append at the end. -/
def dictSet : Dict → String → Yaml → Dict
  | [], k, v => [(k, v)]
  | (k', v') :: d, k, v => if k' = k then (k, v) :: d else (k', v') :: dictSet d k v

/-- Python `d.setdefault(k, v)`: insert `k ↦ v` at the end only when `k` is
absent. -/
def dictSetdefault (d : Dict) (k : String) (v : Yaml) : Dict :=
  if (dictGet d k).isSome then d else d ++ [(k, v)]

/-- View a `Yaml` value as a dict; any other shape is a Python `TypeError` /
`AttributeError` when the code uses it as a dict. -/
def getMap : Yaml → Except PyErr Dict
  | Yaml.map d => Except.ok d
  | _ => Except.error PyErr.typeError

/-- Python `a % b` on ints: `ZeroDivisionError` when `b = 0`, otherwise
floor-convention modulo (result has the sign of `b`). -/
def pymod (a b : Int) : Except PyErr Int :=
  if b = 0 then Except.error PyErr.zeroDivision else Except.ok (Int.fmod a b)

/-- The rack label key written by `add_rack_labels`
(line 14 of `process_openb_dir.py`). -/
def rackKey : String := "topology.kubernetes.io/rack"

/-- The body of the `for node in nodes` loop of `add_rack_labels`
(lines 12–14): `node.setdefault("metadata", {})`,
`node["metadata"].setdefault("labels", {})`, then
`node["metadata"]["labels"][rackKey] = f"rack-{rack_number % rack_mod}"`,
with Python's evaluation order (the f-string, hence the modulo, is evaluated
before the store into the labels dict). -/
def labelNode (node : Dict) (rack_number : Nat) (rack_mod : Int) : Except PyErr Dict :=
  let node := dictSetdefault node "metadata" (Yaml.map [])
  match getMap ((dictGet node "metadata").getD Yaml.nullV) with
  | Except.error e => Except.error e
  | Except.ok md =>
    let md := dictSetdefault md "labels" (Yaml.map [])
    match pymod rack_number rack_mod with
    | Except.error e => Except.error e
    | Except.ok r =>
      match getMap ((dictGet md "labels").getD Yaml.nullV) with
      | Except.error e => Except.error e
      | Except.ok lbls =>
        let lbls := dictSet lbls rackKey (Yaml.strV ("rack-" ++ toString r))
        let md := dictSet md "labels" (Yaml.map lbls)
        Except.ok (dictSet node "metadata" (Yaml.map md))

/-- The loop of `add_rack_labels` (lines 10–16): visit the records in order,
carrying the counter `rack_number`. -/
def rackLoop (rack_mod : Int) : List Dict → Nat → Except PyErr (List Dict)
  | [], _ => Except.ok []
  | n :: ns, i =>
    match labelNode n i rack_mod with
    | Except.error e => Except.error e
    | Except.ok n' =>
      match rackLoop rack_mod ns (i + 1) with
      | Except.error e => Except.error e
      | Except.ok ns' => Except.ok (n' :: ns')

/-- `add_rack_labels(nodes, rack_mod)` (lines 9–16): label every record with
`"rack-<i mod rack_mod>"` where `i` is its zero-based position. -/
def add_rack_labels (nodes : List Dict) (rack_mod : Int) : Except PyErr (List Dict) :=
  rackLoop rack_mod nodes 0

/-- Python's `x == "lit"` where `x` may be any value (or `None` from
`d.get`): true only when `x` is that very string. -/
def isStr (x : Option Yaml) (lit : String) : Bool :=
  match x with
  | some (Yaml.strV s) => s = lit
  | _ => false

/-- The single constraint object built at lines 26–31:
`{"maxSkew": …, "topologyKey": …, "whenUnsatisfiable": …, "labelSelector": {}}`,
in that insertion order. -/
def constraintObj (topology_key : String) (max_skew : Int) (when_unsatisfiable : String) : Yaml :=
  Yaml.map
    [("maxSkew", Yaml.intV max_skew),
     ("topologyKey", Yaml.strV topology_key),
     ("whenUnsatisfiable", Yaml.strV when_unsatisfiable),
     ("labelSelector", Yaml.map [])]

/-- The body of the `for pod in pods` loop of `add_topology_constraints`
(lines 22–31): skip any record whose `"kind"` is not the string `"Pod"`
(`pod.get("kind") != "Pod"`), else `pod.setdefault("spec", {})` and
`pod["spec"]["topologySpreadConstraints"] = [constraint]`. -/
def constrainPod (pod : Dict) (topology_key : String) (max_skew : Int)
    (when_unsatisfiable : String) : Except PyErr Dict :=
  if isStr (dictGet pod "kind") "Pod" = false then Except.ok pod
  else
    let pod := dictSetdefault pod "spec" (Yaml.map [])
    match getMap ((dictGet pod "spec").getD Yaml.nullV) with
    | Except.error e => Except.error e
    | Except.ok sp =>
      let sp := dictSet sp "topologySpreadConstraints"
        (Yaml.arr [constraintObj topology_key max_skew when_unsatisfiable])
      Except.ok (dictSet pod "spec" (Yaml.map sp))

/-- `add_topology_constraints(pods, topology_key, max_skew, when_unsatisfiable)`
(lines 21–32): constrain every `"Pod"` record, pass every other record through. -/
def add_topology_constraints (pods : List Dict) (topology_key : String)
    (max_skew : Int) (when_unsatisfiable : String) : Except PyErr (List Dict) :=
  match pods with
  | [] => Except.ok []
  | p :: ps =>
    match constrainPod p topology_key max_skew when_unsatisfiable with
    | Except.error e => Except.error e
    | Except.ok p' =>
      match add_topology_constraints ps topology_key max_skew when_unsatisfiable with
      | Except.error e => Except.error e
      | Except.ok ps' => Except.ok (p' :: ps')

/-- `pathlib.Path.stem` for a plain filename: the name without its final
extension (the part from the last dot on, provided that dot is neither the
first nor past the last character). -/
def pathStem (name : String) : String :=
  match (name.toList.reverse.takeWhile (fun c => c ≠ '.')).length with
  | ext =>
    if 0 < ext ∧ ext + 1 < name.length then
      (name.toList.take (name.length - ext - 1)).asString
    else name

/-- Whether a filename matches the glob pattern `pre*suf` (the `*` may match
the empty string; filenames contain no path separator here). -/
def matchesGlob (name pre suf : String) : Bool :=
  (pre.length + suf.length ≤ name.length : Bool)
    && pre.data.isPrefixOf name.data && suf.data.isSuffixOf name.data

/-- `next(input_path.glob(pat), None)`: the first directory entry, in
enumeration order, matching the pattern; `none` when there is no match. -/
def globFirst (files : List String) (pre suf : String) : Option String :=
  files.find? (fun n => matchesGlob n pre suf)

/-- A directory as `process_directory` sees it: whether the path is a
directory, its entries in enumeration order, and the parsed multi-document
content of each entry. -/
structure DirInput where
  isDir : Bool
  files : List String
  content : String → List Dict

/-- The observable outcome of one `process_directory` run: whether a `❌`
failure was reported, and the files written (name, documents), in write
order. -/
structure ProcOutput where
  failed : Bool
  outputs : List (String × List Dict)

/-- `process_directory(input_dir, rack_mod, max_skew)` (lines 37–77).
The two early `return`s (invalid directory, missing node or pod file) report
a failure and write nothing; otherwise the node documents are labelled and
written to `stem + "_with_rack-quantity" + str(rack_mod) + ".yaml"`, then the
pod documents are constrained and written to
`stem + "_with_skew-value" + str(max_skew) + ".yaml"`.  An uncaught Python
exception from the annotation helpers is the `Except.error` case. -/
def process_directory (d : DirInput) (rack_mod max_skew : Int) :
    Except PyErr ProcOutput :=
  if d.isDir = false then Except.ok ⟨true, []⟩
  else
    match globFirst d.files "openb_node_list_" ".yaml",
          globFirst d.files "openb_pod_list_" ".yaml" with
    | some node_file, some pod_file =>
      match add_rack_labels (d.content node_file) rack_mod with
      | Except.error e => Except.error e
      | Except.ok nodes_with_racks =>
        match add_topology_constraints (d.content pod_file)
            "topology.kubernetes.io/rack" max_skew "ScheduleAnyway" with
        | Except.error e => Except.error e
        | Except.ok pods_with_constraints =>
          Except.ok ⟨false,
            [(pathStem node_file ++ "_with_rack-quantity"
                ++ toString rack_mod ++ ".yaml", nodes_with_racks),
             (pathStem pod_file ++ "_with_skew-value"
                ++ toString max_skew ++ ".yaml", pods_with_constraints)]⟩
    | _, _ => Except.ok ⟨true, []⟩

/-- `argparse` with `type=int` (lines 85–86): Python's `int()` on a decimal
string with optional leading minus is the value of `--rack-mod` /
`--max-skew`; there is no range or sign check. -/
def cliParseInt (s : String) : Option Int :=
  match s.data with
  | '-' :: ds =>
    if ds ≠ [] ∧ ds.all Char.isDigit then
      some (-((ds.foldl (fun a c => 10 * a + (c.toNat - 48)) 0 : Nat) : Int))
    else none
  | ds =>
    if ds ≠ [] ∧ ds.all Char.isDigit then
      some (((ds.foldl (fun a c => 10 * a + (c.toNat - 48)) 0 : Nat) : Int))
    else none

/-- The value stored under key `k` of `n["metadata"]["labels"]`, when that
path exists as nested dicts. -/
def getLabel (n : Dict) (k : String) : Option Yaml :=
  match dictGet n "metadata" with
  | some (Yaml.map md) =>
    match dictGet md "labels" with
    | some (Yaml.map lbls) => dictGet lbls k
    | _ => none
  | _ => none

/-- The rack label value of a node record. -/
def getRackValue (n : Dict) : Option Yaml := getLabel n rackKey

/-- The value of `p["spec"]["topologySpreadConstraints"]`, when it exists. -/
def getSpread (p : Dict) : Option Yaml :=
  match dictGet p "spec" with
  | some (Yaml.map sp) => dictGet sp "topologySpreadConstraints"
  | _ => none

/-- The string rack labels of a node sequence, in order. -/
def rackStrings (nodes : List Dict) : List String :=
  nodes.filterMap (fun n =>
    match getRackValue n with
    | some (Yaml.strV s) => some s
    | _ => none)

/-- The `"metadata"` value of a record, if present, is a dict.  Records of
this shape are the well-formed ones for `add_rack_labels`: on them the only
possible failure is the modulo. -/
def metadataOk (n : Dict) : Prop :=
  ∀ y, dictGet n "metadata" = some y → ∃ md, y = Yaml.map md

theorem dictGet_dictSet_self (d : Dict) (k : String) (v : Yaml) :
    dictGet (dictSet d k v) k = some v := by
  induction d with
  | nil => simp [dictGet, dictSet]
  | cons p d ih =>
    obtain ⟨k', v'⟩ := p
    by_cases h : k' = k
    · subst h; simp [dictGet, dictSet]
    · simp [dictGet, dictSet, h, ih]

theorem dictGet_dictSet_ne (d : Dict) (k k' : String) (v : Yaml) (h : k' ≠ k) :
    dictGet (dictSet d k v) k' = dictGet d k' := by
  induction d with
  | nil => simp [dictGet, dictSet, Ne.symm h]
  | cons p d ih =>
    obtain ⟨k₀, v₀⟩ := p
    by_cases h₀ : k₀ = k
    · subst h₀; simp [dictGet, dictSet, Ne.symm h]
    · simp [dictGet, dictSet, h₀, ih]

theorem dictGet_append_of_none (d e : Dict) (k : String)
    (h : dictGet d k = none) : dictGet (d ++ e) k = dictGet e k := by
  induction d with
  | nil => simp
  | cons p d ih =>
    obtain ⟨k₀, v₀⟩ := p
    by_cases h₀ : k₀ = k
    · subst h₀; simp [dictGet] at h
    · simp only [dictGet, h₀, if_false] at h
      simpa [dictGet, h₀] using ih h

theorem dictGet_append_of_some (d e : Dict) (k : String) (v : Yaml)
    (h : dictGet d k = some v) : dictGet (d ++ e) k = some v := by
  induction d with
  | nil => simp [dictGet] at h
  | cons p d ih =>
    obtain ⟨k₀, v₀⟩ := p
    by_cases h₀ : k₀ = k
    · subst h₀; simp_all [dictGet]
    · simp only [dictGet, h₀, if_false] at h
      simpa [dictGet, h₀] using ih h

theorem dictSetdefault_of_isSome (d : Dict) (k : String) (v : Yaml)
    (h : (dictGet d k).isSome) : dictSetdefault d k v = d := by
  simp [dictSetdefault, h]

theorem dictGet_dictSetdefault_self (d : Dict) (k : String) (v : Yaml) :
    dictGet (dictSetdefault d k v) k = some ((dictGet d k).getD v) := by
  unfold dictSetdefault
  cases h : dictGet d k with
  | none =>
    simp only [h, Option.isSome_none, Bool.false_eq_true, if_false, Option.getD_none]
    rw [dictGet_append_of_none d _ k h]
    simp [dictGet]
  | some y =>
    simp [h]

theorem dictGet_dictSetdefault_ne (d : Dict) (k k' : String) (v : Yaml)
    (h : k' ≠ k) : dictGet (dictSetdefault d k v) k' = dictGet d k' := by
  unfold dictSetdefault
  split
  · rfl
  · cases h' : dictGet d k' with
    | none => rw [dictGet_append_of_none d _ k' h']; simp [dictGet, Ne.symm h, h']
    | some y => rw [dictGet_append_of_some d _ k' y h']

theorem dictSet_dictSet (d : Dict) (k : String) (v w : Yaml) :
    dictSet (dictSet d k v) k w = dictSet d k w := by
  induction d with
  | nil => simp [dictSet]
  | cons p d ih =>
    obtain ⟨k₀, v₀⟩ := p
    by_cases h₀ : k₀ = k
    · subst h₀; simp [dictSet]
    · simp [dictSet, h₀, ih]

theorem dictSet_eq_self (d : Dict) (k : String) (v : Yaml)
    (h : dictGet d k = some v) : dictSet d k v = d := by
  induction d with
  | nil => simp [dictGet] at h
  | cons p d ih =>
    obtain ⟨k₀, v₀⟩ := p
    by_cases h₀ : k₀ = k
    · subst h₀
      have hv : v₀ = v := by simpa [dictGet] using h
      subst hv
      simp [dictSet]
    · simp only [dictGet, h₀, if_false] at h
      simp [dictSet, h₀, ih h]

theorem getMap_ok (y : Yaml) (d : Dict) (h : getMap y = Except.ok d) :
    y = Yaml.map d := by
  cases y <;> simp_all [getMap]

/-- Everything that holds of one successful `labelNode` step: the modulus was
nonzero, the output carries the rack label `"rack-<i mod R>"` (floor modulo),
every key other than `"metadata"` is untouched, and running the step again
returns the output unchanged. -/
theorem labelNode_ok {node : Dict} {i : Nat} {R : Int} {out : Dict}
    (h : labelNode node i R = Except.ok out) :
    R ≠ 0 ∧
    getRackValue out = some (Yaml.strV ("rack-" ++ toString (Int.fmod i R))) ∧
    (∀ k, k ≠ "metadata" → dictGet out k = dictGet node k) ∧
    labelNode out i R = Except.ok out := by
  simp only [labelNode] at h
  split at h
  · exact absurd h (by simp)
  next md hmd =>
    split at h
    · exact absurd h (by simp)
    next r hr =>
      split at h
      · exact absurd h (by simp)
      next lbls hlbls =>
        have hR : R ≠ 0 := by
          intro h0
          rw [h0] at hr
          simp [pymod] at hr
        have hrv : r = Int.fmod i R := by
          unfold pymod at hr
          rw [if_neg hR] at hr
          simpa using hr.symm
        have hw : (dictGet node "metadata").getD (Yaml.map []) = Yaml.map md := by
          rw [dictGet_dictSetdefault_self] at hmd
          exact getMap_ok _ _ (by simpa using hmd)
        have h1 : dictGet (dictSetdefault node "metadata" (Yaml.map [])) "metadata"
            = some (Yaml.map md) := by
          rw [dictGet_dictSetdefault_self, hw]
        have hw2 : (dictGet md "labels").getD (Yaml.map []) = Yaml.map lbls := by
          rw [dictGet_dictSetdefault_self] at hlbls
          exact getMap_ok _ _ (by simpa using hlbls)
        have h2 : dictGet (dictSetdefault md "labels" (Yaml.map [])) "labels"
            = some (Yaml.map lbls) := by
          rw [dictGet_dictSetdefault_self, hw2]
        have hout : dictSet (dictSetdefault node "metadata" (Yaml.map []))
            "metadata"
            (Yaml.map (dictSet (dictSetdefault md "labels" (Yaml.map []))
              "labels"
              (Yaml.map (dictSet lbls rackKey
                (Yaml.strV ("rack-" ++ toString r)))))) = out := by
          simpa using h
        subst hout
        subst hrv
        refine ⟨hR, ?_, ?_, ?_⟩
        · simp [getRackValue, getLabel, dictGet_dictSet_self]
        · intro k hk
          rw [dictGet_dictSet_ne _ _ _ _ hk, dictGet_dictSetdefault_ne _ _ _ _ hk]
        · simp only [labelNode, dictSetdefault, dictGet_dictSet_self,
            Option.isSome_some, if_pos, Option.getD_some, getMap, pymod,
            if_neg hR, dictSet_dictSet]

/-- Pointwise description of a successful `rackLoop` run starting at
counter `i`. -/
theorem rackLoop_ok {R : Int} :
    ∀ (ns : List Dict) (i : Nat) (out : List Dict),
      rackLoop R ns i = Except.ok out →
      out.length = ns.length ∧
      ∀ j (hj : j < ns.length) (hj' : j < out.length),
        labelNode (ns.get ⟨j, hj⟩) (i + j) R = Except.ok (out.get ⟨j, hj'⟩) := by
  intro ns
  induction ns with
  | nil =>
    intro i out h
    simp only [rackLoop] at h
    obtain rfl : ([] : List Dict) = out := by simpa using h
    refine ⟨rfl, ?_⟩
    intro j hj
    simp at hj
  | cons n ns ih =>
    intro i out h
    simp only [rackLoop] at h
    split at h
    · exact absurd h (by simp)
    next n' hn' =>
      split at h
      · exact absurd h (by simp)
      next ns' hns' =>
        obtain rfl : n' :: ns' = out := by simpa using h
        obtain ⟨hlen, hpt⟩ := ih (i + 1) ns' hns'
        refine ⟨by simp [hlen], ?_⟩
        intro j hj hj'
        cases j with
        | zero => simpa using hn'
        | succ j =>
          have hh := hpt j (by simpa using hj) (by simpa using hj')
          have harith : i + 1 + j = i + (j + 1) := by omega
          rw [harith] at hh
          simpa using hh

/-- Pointwise description of a successful `add_rack_labels` run. -/
theorem add_rack_labels_ok {nodes out : List Dict} {R : Int}
    (h : add_rack_labels nodes R = Except.ok out) :
    out.length = nodes.length ∧
    ∀ j (hj : j < nodes.length) (hj' : j < out.length),
      labelNode (nodes.get ⟨j, hj⟩) j R = Except.ok (out.get ⟨j, hj'⟩) := by
  obtain ⟨hlen, hpt⟩ := rackLoop_ok nodes 0 out h
  refine ⟨hlen, ?_⟩
  intro j hj hj'
  simpa using hpt j hj hj'

/-- Everything that holds of one successful `constrainPod` step. -/
theorem constrainPod_ok {p : Dict} {k w : String} {s : Int} {out : Dict}
    (h : constrainPod p k s w = Except.ok out) :
    (∀ k', k' ≠ "spec" → dictGet out k' = dictGet p k') ∧
    (isStr (dictGet p "kind") "Pod" = true →
      getSpread out = some (Yaml.arr [constraintObj k s w])) ∧
    (isStr (dictGet p "kind") "Pod" = false → out = p) ∧
    constrainPod out k s w = Except.ok out := by
  simp only [constrainPod] at h
  split at h
  next hkind =>
    obtain rfl : p = out := by simpa using h
    refine ⟨fun _ _ => rfl, ?_, fun _ => rfl, ?_⟩
    · intro ht; rw [hkind] at ht; exact absurd ht (by simp)
    · simp [constrainPod, hkind]
  next hkind =>
    have hkind' : isStr (dictGet p "kind") "Pod" = true := by
      revert hkind
      cases isStr (dictGet p "kind") "Pod" <;> simp
    split at h
    · exact absurd h (by simp)
    next sp hsp =>
      have hw : (dictGet p "spec").getD (Yaml.map []) = Yaml.map sp := by
        rw [dictGet_dictSetdefault_self] at hsp
        exact getMap_ok _ _ (by simpa using hsp)
      have h3 : dictGet (dictSetdefault p "spec" (Yaml.map [])) "spec"
          = some (Yaml.map sp) := by
        rw [dictGet_dictSetdefault_self, hw]
      have hout : dictSet (dictSetdefault p "spec" (Yaml.map [])) "spec"
          (Yaml.map (dictSet sp "topologySpreadConstraints"
            (Yaml.arr [constraintObj k s w]))) = out := by
        simpa using h
      subst hout
      have hframe : ∀ k', k' ≠ "spec" →
          dictGet (dictSet (dictSetdefault p "spec" (Yaml.map [])) "spec"
            (Yaml.map (dictSet sp "topologySpreadConstraints"
              (Yaml.arr [constraintObj k s w])))) k' = dictGet p k' := by
        intro k' hk'
        rw [dictGet_dictSet_ne _ _ _ _ hk', dictGet_dictSetdefault_ne _ _ _ _ hk']
      refine ⟨hframe, ?_, ?_, ?_⟩
      · intro _
        simp [getSpread, dictGet_dictSet_self]
      · intro hf; rw [hkind'] at hf; exact absurd hf (by simp)
      · have hkindout := hframe "kind" (by simp)
        simp only [constrainPod, hkindout, hkind', Bool.true_eq_false, if_false,
          dictSetdefault, dictGet_dictSet_self, Option.isSome_some, if_pos,
          Option.getD_some, getMap, dictSet_dictSet]
        rw [ite_self]

/-- The decimal digit characters of a natural number, most significant
first; agrees with core's fuel-based `Nat.toDigits 10`. -/
def decDigits (n : Nat) : List Char :=
  if _h : n < 10 then [Nat.digitChar n]
  else decDigits (n / 10) ++ [Nat.digitChar (n % 10)]
decreasing_by exact Nat.div_lt_self (by omega) (by omega)

theorem toDigitsCore_append (b : Nat) :
    ∀ (fuel n : Nat) (ds : List Char),
      Nat.toDigitsCore b fuel n ds = Nat.toDigitsCore b fuel n [] ++ ds := by
  intro fuel
  induction fuel with
  | zero => intro n ds; simp [Nat.toDigitsCore]
  | succ fuel ih =>
    intro n ds
    simp only [Nat.toDigitsCore]
    by_cases h : n / b = 0
    · simp [h]
    · rw [if_neg h, if_neg h]
      rw [ih (n / b) (Nat.digitChar (n % b) :: ds), ih (n / b) [Nat.digitChar (n % b)]]
      simp

theorem toDigitsCore_eq_decDigits :
    ∀ (fuel n : Nat), n < fuel →
      Nat.toDigitsCore 10 fuel n [] = decDigits n := by
  intro fuel
  induction fuel with
  | zero => intro n h; omega
  | succ fuel ih =>
    intro n hn
    simp only [Nat.toDigitsCore]
    by_cases h : n / 10 = 0
    · have h10 : n < 10 := by omega
      rw [if_pos h, decDigits, dif_pos h10, Nat.mod_eq_of_lt h10]
    · rw [if_neg h]
      rw [toDigitsCore_append, ih (n / 10) (by omega)]
      conv_rhs => rw [decDigits]
      rw [dif_neg (by omega : ¬ n < 10)]

theorem toDigits_eq_decDigits (n : Nat) : Nat.toDigits 10 n = decDigits n :=
  toDigitsCore_eq_decDigits (n + 1) n (Nat.lt_succ_self n)

/-- The numeric value of a decimal digit character. -/
def digitVal (c : Char) : Nat := c.toNat - 48

theorem digitVal_digitChar (m : Nat) (h : m < 10) :
    digitVal (Nat.digitChar m) = m := by
  interval_cases m <;> rfl

theorem foldl_decDigits (n : Nat) :
    ∀ a : Nat, (decDigits n).foldl (fun acc c => 10 * acc + digitVal c) a
      = a * 10 ^ (decDigits n).length + n := by
  induction n using Nat.strong_induction_on with
  | _ n ih =>
    intro a
    by_cases h : n < 10
    · rw [decDigits, dif_pos h]
      simp only [List.foldl, List.length_singleton, pow_one,
        digitVal_digitChar n h]
      omega
    · rw [decDigits, dif_neg h]
      rw [List.foldl_append]
      rw [ih (n / 10) (Nat.div_lt_self (by omega) (by omega)) a]
      have key : 10 * (n / 10) + n % 10 = n := by omega
      simp only [List.foldl, List.length_append, List.length_singleton,
        digitVal_digitChar (n % 10) (by omega : n % 10 < 10)]
      rw [pow_succ]
      calc 10 * (a * 10 ^ (decDigits (n / 10)).length + n / 10) + n % 10
          = a * (10 ^ (decDigits (n / 10)).length * 10)
            + (10 * (n / 10) + n % 10) := by ring
        _ = a * (10 ^ (decDigits (n / 10)).length * 10) + n := by rw [key]

theorem decode_decDigits (n : Nat) :
    (decDigits n).foldl (fun acc c => 10 * acc + digitVal c) 0 = n := by
  simpa using foldl_decDigits n 0

/-- Distinct naturals print to distinct decimal strings. -/
theorem natRepr_injective : Function.Injective Nat.repr := by
  intro a b h
  have h' : (Nat.toDigits 10 a).asString = (Nat.toDigits 10 b).asString := h
  rw [toDigits_eq_decDigits, toDigits_eq_decDigits] at h'
  have hd : decDigits a = decDigits b := congrArg String.data h'
  have := congrArg (fun l => l.foldl (fun acc c => 10 * acc + digitVal c) 0) hd
  simpa [decode_decDigits] using this

theorem string_append_left_cancel {s a b : String} (h : s ++ a = s ++ b) :
    a = b := by
  obtain ⟨ls⟩ := s
  obtain ⟨la⟩ := a
  obtain ⟨lb⟩ := b
  have h' : ls ++ la = ls ++ lb := by
    simpa using congrArg String.data h
  simpa using congrArg String.mk (List.append_cancel_left h')

/-- Distinct rack numbers yield distinct rack label strings. -/
theorem rackString_injective :
    Function.Injective (fun k : Nat => "rack-" ++ Nat.repr k) := by
  intro a b h
  exact natRepr_injective (string_append_left_cancel h)

theorem filterMap_eq_map_range {α β : Type} :
    ∀ (l : List α) (f : α → Option β) (g : Nat → β),
      (∀ j (hj : j < l.length), f (l.get ⟨j, hj⟩) = some (g j)) →
      l.filterMap f = (List.range l.length).map g := by
  intro l
  induction l with
  | nil => intro f g _; simp
  | cons x l ih =>
    intro f g h
    have h0 : f x = some (g 0) := by simpa using h 0 (by simp)
    have ht : ∀ j (hj : j < l.length), f (l.get ⟨j, hj⟩) = some (g (j + 1)) := by
      intro j hj
      simpa using h (j + 1) (by simpa using Nat.succ_lt_succ hj)
    simp only [List.filterMap_cons, h0]
    rw [ih f (fun j => g (j + 1)) ht]
    rw [List.length_cons, List.range_succ_eq_map]
    simp [List.map_map, Function.comp]

theorem image_mod_range (N R : Nat) (hR : 1 ≤ R) :
    (Finset.range N).image (fun i => i % R) = Finset.range (min N R) := by
  ext j
  simp only [Finset.mem_image, Finset.mem_range, lt_min_iff]
  constructor
  · rintro ⟨i, hi, rfl⟩
    exact ⟨Nat.lt_of_le_of_lt (Nat.mod_le i R) hi, Nat.mod_lt i (by omega)⟩
  · rintro ⟨hjN, hjR⟩
    exact ⟨j, hjN, Nat.mod_eq_of_lt hjR⟩

theorem toFinset_map_eq {α β : Type} [DecidableEq α] [DecidableEq β]
    (l : List α) (f : α → β) : (l.map f).toFinset = l.toFinset.image f := by
  ext b
  simp

theorem toFinset_range_eq (n : Nat) :
    (List.range n).toFinset = Finset.range n := by
  ext j
  simp

theorem dedup_length_rack (N R : Nat) (hR : 1 ≤ R) :
    ((List.range N).map (fun i => "rack-" ++ Nat.repr (i % R))).dedup.length
      = min N R := by
  rw [← List.card_toFinset, toFinset_map_eq, toFinset_range_eq]
  have hcomp : (Finset.range N).image (fun i => "rack-" ++ Nat.repr (i % R))
      = ((Finset.range N).image (fun i => i % R)).image
          (fun k => "rack-" ++ Nat.repr k) := by
    rw [Finset.image_image]
    rfl
  rw [hcomp, image_mod_range N R hR,
    Finset.card_image_of_injective _ rackString_injective, Finset.card_range]

/-- Pointwise description of a successful `add_topology_constraints` run. -/
theorem add_topology_constraints_ok {k w : String} {s : Int} :
    ∀ (ps out : List Dict),
      add_topology_constraints ps k s w = Except.ok out →
      out.length = ps.length ∧
      ∀ j (hj : j < ps.length) (hj' : j < out.length),
        constrainPod (ps.get ⟨j, hj⟩) k s w = Except.ok (out.get ⟨j, hj'⟩) := by
  intro ps
  induction ps with
  | nil =>
    intro out h
    simp only [add_topology_constraints] at h
    obtain rfl : ([] : List Dict) = out := by simpa using h
    refine ⟨rfl, ?_⟩
    intro j hj
    simp at hj
  | cons p ps ih =>
    intro out h
    simp only [add_topology_constraints] at h
    split at h
    · exact absurd h (by simp)
    next p' hp' =>
      split at h
      · exact absurd h (by simp)
      next ps' hps' =>
        obtain rfl : p' :: ps' = out := by simpa using h
        obtain ⟨hlen, hpt⟩ := ih ps' hps'
        refine ⟨by simp [hlen], ?_⟩
        intro j hj hj'
        cases j with
        | zero => simpa using hp'
        | succ j =>
          have hh := hpt j (by simpa using hj) (by simpa using hj')
          simpa using hh

/-- C1: for every machine sequence and every rack modulus `R ≥ 1`, after
`add_rack_labels` the record at zero-based index `i` carries the rack label
value `"rack-<i mod R>"` under the rack label key, and the number of distinct
rack label values over the sequence is `min (length, R)`. -/
theorem claim_c1 (nodes out : List Dict) (R : Nat) (hR : 1 ≤ R)
    (h : add_rack_labels nodes (R : Int) = Except.ok out) :
    out.length = nodes.length ∧
    (∀ j (hj : j < out.length),
      getRackValue (out.get ⟨j, hj⟩)
        = some (Yaml.strV ("rack-" ++ Nat.repr (j % R)))) ∧
    (rackStrings out).dedup.length = min nodes.length R := by
  obtain ⟨hlen, hpt⟩ := add_rack_labels_ok h
  have hfm : ∀ j : Nat, Int.fmod (j : Int) (R : Int) = ((j % R : Nat) : Int) := by
    intro j
    rw [Int.fmod_eq_emod _ (Int.natCast_nonneg R)]
    exact (Int.ofNat_emod j R).symm
  have hval : ∀ j (hj : j < out.length),
      getRackValue (out.get ⟨j, hj⟩)
        = some (Yaml.strV ("rack-" ++ Nat.repr (j % R))) := by
    intro j hj
    have hj' : j < nodes.length := by omega
    have hv := (labelNode_ok (hpt j hj' hj)).2.1
    rw [hfm j] at hv
    exact hv
  refine ⟨hlen, hval, ?_⟩
  have hstr : rackStrings out
      = (List.range out.length).map (fun j => "rack-" ++ Nat.repr (j % R)) := by
    simp only [rackStrings]
    apply filterMap_eq_map_range
    intro j hj
    have hv := hval j hj
    simp only [List.get_eq_getElem] at hv ⊢
    rw [hv]
  rw [hstr, dedup_length_rack out.length R hR, hlen]

/-- The output of `add_rack_labels` on three empty records with modulus 2,
used as concrete witness data. -/
def c1out : List Dict :=
  [[("metadata", Yaml.map [("labels", Yaml.map [(rackKey, Yaml.strV "rack-0")])])],
   [("metadata", Yaml.map [("labels", Yaml.map [(rackKey, Yaml.strV "rack-1")])])],
   [("metadata", Yaml.map [("labels", Yaml.map [(rackKey, Yaml.strV "rack-0")])])]]

/-- Witness for C1: three machine records with modulus 2 give rack labels
`rack-0, rack-1, rack-0` and two distinct values. -/
theorem claim_c1_witness :
    1 ≤ 2 ∧
    add_rack_labels ([[], [], []] : List Dict) ((2 : Nat) : Int) = Except.ok c1out ∧
    c1out.length = ([[], [], []] : List Dict).length ∧
    (rackStrings c1out).dedup.length = min ([[], [], []] : List Dict).length 2 := by
  have h : add_rack_labels ([[], [], []] : List Dict) ((2 : Nat) : Int)
      = Except.ok c1out := rfl
  obtain ⟨hlen, _, hdedup⟩ := claim_c1 [[], [], []] c1out 2 (by decide) h
  exact ⟨by decide, h, hlen, hdedup⟩

/-- C2: after `add_topology_constraints` with skew `S`, every record whose
`kind` is `"Pod"` has its `spec.topologySpreadConstraints` equal to the
single-element list containing exactly the constraint with skew `S`,
topology key `rackKey`, policy `"ScheduleAnyway"` and empty selector,
replacing any prior value; a missing `spec` dict is created (implied by
`getSpread` returning a value). -/
theorem claim_c2 (pods out : List Dict) (S : Int)
    (h : add_topology_constraints pods rackKey S "ScheduleAnyway" = Except.ok out) :
    out.length = pods.length ∧
    ∀ j (hj : j < pods.length) (hj' : j < out.length),
      isStr (dictGet (pods.get ⟨j, hj⟩) "kind") "Pod" = true →
      dictGet (out.get ⟨j, hj'⟩) "kind" = dictGet (pods.get ⟨j, hj⟩) "kind" ∧
      getSpread (out.get ⟨j, hj'⟩)
        = some (Yaml.arr [constraintObj rackKey S "ScheduleAnyway"]) := by
  obtain ⟨hlen, hpt⟩ := add_topology_constraints_ok pods out h
  refine ⟨hlen, ?_⟩
  intro j hj hj' hkind
  obtain ⟨hframe, hspread, _, _⟩ := constrainPod_ok (hpt j hj hj')
  exact ⟨hframe "kind" (by decide), hspread hkind⟩

/-- Concrete pod list for the C2 witness. -/
def c2pods : List Dict := [[("kind", Yaml.strV "Pod")]]

/-- Expected output of `add_topology_constraints` on `c2pods` with skew 3. -/
def c2out : List Dict :=
  [[("kind", Yaml.strV "Pod"),
    ("spec", Yaml.map [("topologySpreadConstraints",
      Yaml.arr [constraintObj rackKey 3 "ScheduleAnyway"])])]]

/-- Witness for C2 at a concrete one-pod list with skew 3. -/
theorem claim_c2_witness :
    add_topology_constraints c2pods rackKey 3 "ScheduleAnyway" = Except.ok c2out ∧
    isStr (dictGet (c2pods.get ⟨0, by decide⟩) "kind") "Pod" = true ∧
    getSpread (c2out.get ⟨0, by decide⟩)
      = some (Yaml.arr [constraintObj rackKey 3 "ScheduleAnyway"]) := by
  have h : add_topology_constraints c2pods rackKey 3 "ScheduleAnyway"
      = Except.ok c2out := rfl
  obtain ⟨_, hpt⟩ := claim_c2 c2pods c2out 3 h
  exact ⟨h, by decide, (hpt 0 (by decide) (by decide) (by decide)).2⟩

/-- C4: `add_topology_constraints` leaves every record whose `kind` is not
`"Pod"` exactly equal to its input value, whatever its prior fields
(including a pre-existing spread-constraints field). -/
theorem claim_c4 (pods out : List Dict) (k w : String) (s : Int)
    (h : add_topology_constraints pods k s w = Except.ok out) :
    out.length = pods.length ∧
    ∀ j (hj : j < pods.length) (hj' : j < out.length),
      isStr (dictGet (pods.get ⟨j, hj⟩) "kind") "Pod" = false →
      out.get ⟨j, hj'⟩ = pods.get ⟨j, hj⟩ := by
  obtain ⟨hlen, hpt⟩ := add_topology_constraints_ok pods out h
  refine ⟨hlen, ?_⟩
  intro j hj hj' hkind
  exact (constrainPod_ok (hpt j hj hj')).2.2.1 hkind

/-- Concrete non-workload list for the C4 witness: a `Node` record with a
pre-existing spread-constraints field. -/
def c4pods : List Dict :=
  [[("kind", Yaml.strV "Node"),
    ("spec", Yaml.map [("topologySpreadConstraints", Yaml.intV 9)])]]

/-- Witness for C4: the non-Pod record passes through untouched. -/
theorem claim_c4_witness :
    add_topology_constraints c4pods "k" 1 "w" = Except.ok c4pods ∧
    isStr (dictGet (c4pods.get ⟨0, by decide⟩) "kind") "Pod" = false ∧
    c4pods.get ⟨0, by decide⟩ = c4pods.get ⟨0, by decide⟩ := by
  have h : add_topology_constraints c4pods "k" 1 "w" = Except.ok c4pods := rfl
  obtain ⟨_, hpt⟩ := claim_c4 c4pods c4pods "k" "w" 1 h
  exact ⟨h, by decide, hpt 0 (by decide) (by decide) (by decide)⟩

/-- A successful `rackLoop` run is a fixed point: running it again from the
same counter returns the output unchanged. -/
theorem rackLoop_idem {R : Int} :
    ∀ (ns : List Dict) (i : Nat) (out : List Dict),
      rackLoop R ns i = Except.ok out → rackLoop R out i = Except.ok out := by
  intro ns
  induction ns with
  | nil =>
    intro i out h
    simp only [rackLoop] at h
    obtain rfl : ([] : List Dict) = out := by simpa using h
    rfl
  | cons n ns ih =>
    intro i out h
    simp only [rackLoop] at h
    split at h
    · exact absurd h (by simp)
    next n' hn' =>
      split at h
      · exact absurd h (by simp)
      next ns' hns' =>
        obtain rfl : n' :: ns' = out := by simpa using h
        have h1 : labelNode n' i R = Except.ok n' := (labelNode_ok hn').2.2.2
        have h2 := ih (i + 1) ns' hns'
        simp only [rackLoop, h1, h2]

/-- A successful `add_topology_constraints` run is a fixed point. -/
theorem add_topology_constraints_idem {k w : String} {s : Int} :
    ∀ (ps out : List Dict),
      add_topology_constraints ps k s w = Except.ok out →
      add_topology_constraints out k s w = Except.ok out := by
  intro ps
  induction ps with
  | nil =>
    intro out h
    simp only [add_topology_constraints] at h
    obtain rfl : ([] : List Dict) = out := by simpa using h
    rfl
  | cons p ps ih =>
    intro out h
    simp only [add_topology_constraints] at h
    split at h
    · exact absurd h (by simp)
    next p' hp' =>
      split at h
      · exact absurd h (by simp)
      next ps' hps' =>
        obtain rfl : p' :: ps' = out := by simpa using h
        have h1 : constrainPod p' k s w = Except.ok p' := (constrainPod_ok hp').2.2.2
        have h2 := ih ps' hps'
        simp only [add_topology_constraints, h1, h2]

/-- C5: both annotations are idempotent on the in-memory sequence: a second
run with the same parameters returns the first run's output unchanged
(overwrite semantics, no accumulation). -/
theorem claim_c5 :
    (∀ (nodes out : List Dict) (R : Int),
      add_rack_labels nodes R = Except.ok out →
      add_rack_labels out R = Except.ok out) ∧
    (∀ (pods out : List Dict) (k w : String) (s : Int),
      add_topology_constraints pods k s w = Except.ok out →
      add_topology_constraints out k s w = Except.ok out) :=
  ⟨fun nodes out R h => @rackLoop_idem R nodes 0 out h,
   fun pods out k w s h => @add_topology_constraints_idem k w s pods out h⟩

/-- Witness for C5: a rack run on one empty record and a constraint run on
one pod record, each applied a second time. -/
theorem claim_c5_witness :
    add_rack_labels ([[]] : List Dict) 2
      = Except.ok [[("metadata", Yaml.map [("labels",
          Yaml.map [(rackKey, Yaml.strV "rack-0")])])]] ∧
    add_rack_labels [[("metadata", Yaml.map [("labels",
          Yaml.map [(rackKey, Yaml.strV "rack-0")])])]] 2
      = Except.ok [[("metadata", Yaml.map [("labels",
          Yaml.map [(rackKey, Yaml.strV "rack-0")])])]] ∧
    add_topology_constraints c2pods rackKey 3 "ScheduleAnyway" = Except.ok c2out ∧
    add_topology_constraints c2out rackKey 3 "ScheduleAnyway" = Except.ok c2out :=
  ⟨rfl, claim_c5.1 [[]] _ 2 rfl, rfl, claim_c5.2 c2pods c2out rackKey "ScheduleAnyway" 3 rfl⟩

/-- C7: both annotations preserve length and order: the output record at
index `j` is exactly the annotated version of the input record at index `j`
(the per-record step applied to it), and agrees with the input on every key
other than the one injected field (`"metadata"` resp. `"spec"`). -/
theorem claim_c7 :
    (∀ (nodes out : List Dict) (R : Int),
      add_rack_labels nodes R = Except.ok out →
      out.length = nodes.length ∧
      ∀ j (hj : j < nodes.length) (hj' : j < out.length),
        labelNode (nodes.get ⟨j, hj⟩) j R = Except.ok (out.get ⟨j, hj'⟩) ∧
        ∀ k, k ≠ "metadata" →
          dictGet (out.get ⟨j, hj'⟩) k = dictGet (nodes.get ⟨j, hj⟩) k) ∧
    (∀ (pods out : List Dict) (k w : String) (s : Int),
      add_topology_constraints pods k s w = Except.ok out →
      out.length = pods.length ∧
      ∀ j (hj : j < pods.length) (hj' : j < out.length),
        constrainPod (pods.get ⟨j, hj⟩) k s w = Except.ok (out.get ⟨j, hj'⟩) ∧
        ∀ q, q ≠ "spec" →
          dictGet (out.get ⟨j, hj'⟩) q = dictGet (pods.get ⟨j, hj⟩) q) := by
  constructor
  · intro nodes out R h
    obtain ⟨hlen, hpt⟩ := add_rack_labels_ok h
    refine ⟨hlen, ?_⟩
    intro j hj hj'
    have hstep := hpt j hj hj'
    exact ⟨hstep, fun k hk => (labelNode_ok hstep).2.2.1 k hk⟩
  · intro pods out k w s h
    obtain ⟨hlen, hpt⟩ := add_topology_constraints_ok pods out h
    refine ⟨hlen, ?_⟩
    intro j hj hj'
    have hstep := hpt j hj hj'
    exact ⟨hstep, fun q hq => (constrainPod_ok hstep).1 q hq⟩

/-- Witness for C7 at a one-record machine list and a one-record pod list. -/
theorem claim_c7_witness :
    add_rack_labels ([[("kind", Yaml.strV "Node")]] : List Dict) 2
      = Except.ok [[("kind", Yaml.strV "Node"),
          ("metadata", Yaml.map [("labels",
            Yaml.map [(rackKey, Yaml.strV "rack-0")])])]] ∧
    ([[("kind", Yaml.strV "Node"),
        ("metadata", Yaml.map [("labels",
          Yaml.map [(rackKey, Yaml.strV "rack-0")])])]] : List Dict).length
      = ([[("kind", Yaml.strV "Node")]] : List Dict).length ∧
    add_topology_constraints c2pods rackKey 3 "ScheduleAnyway" = Except.ok c2out ∧
    c2out.length = c2pods.length := by
  have h1 : add_rack_labels ([[("kind", Yaml.strV "Node")]] : List Dict) 2
      = Except.ok [[("kind", Yaml.strV "Node"),
          ("metadata", Yaml.map [("labels",
            Yaml.map [(rackKey, Yaml.strV "rack-0")])])]] := rfl
  have h2 : add_topology_constraints c2pods rackKey 3 "ScheduleAnyway"
      = Except.ok c2out := rfl
  exact ⟨h1, (claim_c7.1 _ _ 2 h1).1, h2, (claim_c7.2 c2pods c2out rackKey "ScheduleAnyway" 3 h2).1⟩

theorem dictSet_append_of_none (d : Dict) (k : String) (w x : Yaml)
    (h : dictGet d k = none) : dictSet (d ++ [(k, w)]) k x = d ++ [(k, x)] := by
  induction d with
  | nil => simp [dictSet]
  | cons p d ih =>
    obtain ⟨k₀, v₀⟩ := p
    by_cases h₀ : k₀ = k
    · subst h₀; simp [dictGet] at h
    · simp only [dictGet, h₀, if_false] at h
      simp [dictSet, h₀, ih h]

/-- C8: rack assignment labels every record regardless of its `kind` field
(no record is skipped, existing labels are overwritten without inspection:
the value at the rack key is always `"rack-<i mod R>"`); a record lacking a
`metadata` dict has `metadata.labels` created for it; and with modulus 1
every record gets `"rack-0"`. -/
theorem claim_c8 :
    (∀ (nodes out : List Dict) (R : Int),
      add_rack_labels nodes R = Except.ok out →
      out.length = nodes.length ∧
      ∀ j (hj : j < out.length),
        getRackValue (out.get ⟨j, hj⟩)
          = some (Yaml.strV ("rack-" ++ toString (Int.fmod (j : Int) R)))) ∧
    (∀ (node : Dict) (i : Nat) (R : Int), R ≠ 0 →
      dictGet node "metadata" = none →
      labelNode node i R
        = Except.ok (node ++ [("metadata", Yaml.map [("labels",
            Yaml.map [(rackKey,
              Yaml.strV ("rack-" ++ toString (Int.fmod (i : Int) R)))])])])) ∧
    (∀ (nodes out : List Dict),
      add_rack_labels nodes 1 = Except.ok out →
      ∀ j (hj : j < out.length),
        getRackValue (out.get ⟨j, hj⟩) = some (Yaml.strV "rack-0")) := by
  have hval : ∀ (nodes out : List Dict) (R : Int),
      add_rack_labels nodes R = Except.ok out →
      out.length = nodes.length ∧
      ∀ j (hj : j < out.length),
        getRackValue (out.get ⟨j, hj⟩)
          = some (Yaml.strV ("rack-" ++ toString (Int.fmod (j : Int) R))) := by
    intro nodes out R h
    obtain ⟨hlen, hpt⟩ := add_rack_labels_ok h
    refine ⟨hlen, ?_⟩
    intro j hj
    have hj' : j < nodes.length := by omega
    exact (labelNode_ok (hpt j hj' hj)).2.1
  refine ⟨hval, ?_, ?_⟩
  · intro node i R hR hmd
    have hsd : dictSetdefault node "metadata" (Yaml.map [])
        = node ++ [("metadata", Yaml.map [])] := by
      simp [dictSetdefault, hmd]
    have hg : dictGet (node ++ [("metadata", Yaml.map [])]) "metadata"
        = some (Yaml.map []) := by
      rw [dictGet_append_of_none _ _ _ hmd]
      simp [dictGet]
    have hset := dictSet_append_of_none node "metadata"
      (Yaml.map []) (Yaml.map [("labels", Yaml.map [(rackKey,
        Yaml.strV ("rack-" ++ toString (Int.fmod (i : Int) R)))])]) hmd
    simp [labelNode, dictSetdefault, hmd, hg, getMap, pymod, if_neg hR,
      dictSet, dictGet, hset]
  · intro nodes out h
    intro j hj
    have := (hval nodes out 1 h).2 j hj
    simpa using this

/-- C8 witness input: one record with a non-machine `kind` and a
pre-existing rack label. -/
def c8nodes : List Dict :=
  [[("kind", Yaml.strV "NotANode"),
    ("metadata", Yaml.map [("labels", Yaml.map [(rackKey, Yaml.strV "rack-99")])])]]

/-- C8 witness output: still labelled, old label overwritten with
`rack-0` (modulus 1). -/
def c8out : List Dict :=
  [[("kind", Yaml.strV "NotANode"),
    ("metadata", Yaml.map [("labels", Yaml.map [(rackKey, Yaml.strV "rack-0")])])]]

/-- Witness for C8: kind is ignored, the prior label is overwritten, `R = 1`
gives `rack-0`, and a record without `metadata` has the structure created. -/
theorem claim_c8_witness :
    add_rack_labels c8nodes 1 = Except.ok c8out ∧
    getRackValue (c8out.get ⟨0, by decide⟩) = some (Yaml.strV "rack-0") ∧
    dictGet ([] : Dict) "metadata" = none ∧
    labelNode [] 5 3
      = Except.ok [("metadata", Yaml.map [("labels", Yaml.map [(rackKey,
          Yaml.strV ("rack-" ++ toString (Int.fmod (5 : Int) 3)))])])] := by
  have h : add_rack_labels c8nodes 1 = Except.ok c8out := rfl
  refine ⟨h, claim_c8.2.2 c8nodes c8out h 0 (by decide), rfl, ?_⟩
  have h2 := claim_c8.2.1 [] 5 3 (by decide) rfl
  simpa using h2

/-- C3: when the path is not a directory, or either name pattern has no
match, `process_directory` returns normally (no exception: `Except.ok`),
reports a failure (`failed = true`), and writes no output files. -/
theorem claim_c3 (d : DirInput) (r s : Int)
    (h : d.isDir = false ∨
      globFirst d.files "openb_node_list_" ".yaml" = none ∨
      globFirst d.files "openb_pod_list_" ".yaml" = none) :
    process_directory d r s = Except.ok ⟨true, []⟩ := by
  unfold process_directory
  rcases h with h | h | h
  · simp [h]
  · by_cases hd : d.isDir = false
    · simp [hd]
    · have hd' : d.isDir = true := by revert hd; cases d.isDir <;> simp
      simp [hd', h]
  · by_cases hd : d.isDir = false
    · simp [hd]
    · have hd' : d.isDir = true := by revert hd; cases d.isDir <;> simp
      cases hx : globFirst d.files "openb_node_list_" ".yaml" <;> simp [hd', h, hx]

/-- C3 witness directory: a real directory holding only a machine-list
file, so the workload-list pattern has no match. -/
def c3dir : DirInput :=
  ⟨true, ["openb_node_list_v1.yaml"], fun _ => []⟩

/-- Witness for C3: the pod pattern has no match, processing reports failure
and writes nothing. -/
theorem claim_c3_witness :
    globFirst c3dir.files "openb_pod_list_" ".yaml" = none ∧
    process_directory c3dir 2 3 = Except.ok ⟨true, []⟩ :=
  ⟨rfl, claim_c3 c3dir 2 3 (Or.inr (Or.inr rfl))⟩


/-- Shape of any successful, non-failed `process_directory` run: both
patterns matched, both annotations succeeded, and the two output files carry
the parameter-encoded names. -/
theorem process_directory_ok {d : DirInput} {r s : Int} {res : ProcOutput}
    (hp : process_directory d r s = Except.ok res) (hf : res.failed = false) :
    ∃ nf pf nodesOut podsOut,
      globFirst d.files "openb_node_list_" ".yaml" = some nf ∧
      globFirst d.files "openb_pod_list_" ".yaml" = some pf ∧
      add_rack_labels (d.content nf) r = Except.ok nodesOut ∧
      add_topology_constraints (d.content pf) "topology.kubernetes.io/rack" s
        "ScheduleAnyway" = Except.ok podsOut ∧
      res.outputs
        = [(pathStem nf ++ "_with_rack-quantity" ++ toString r ++ ".yaml", nodesOut),
           (pathStem pf ++ "_with_skew-value" ++ toString s ++ ".yaml", podsOut)] := by
  unfold process_directory at hp
  split at hp
  · obtain rfl : (⟨true, []⟩ : ProcOutput) = res := by simpa using hp
    simp at hf
  · split at hp
    next nf pf heq1 heq2 =>
      split at hp
      · exact absurd hp (by simp)
      next nodesOut hnodes =>
        split at hp
        · exact absurd hp (by simp)
        next podsOut hpods =>
          injection hp with h2
          subst h2
          exact ⟨nf, pf, nodesOut, podsOut, heq1, heq2, hnodes, hpods, rfl⟩
    next hfall =>
      obtain rfl : (⟨true, []⟩ : ProcOutput) = res := by simpa using hp
      simp at hf

/-- C6: on a successful run, the machine output filename is the input stem
plus `"_with_rack-quantity"` plus the decimal rack modulus plus `".yaml"`,
and the workload output filename is the input stem plus `"_with_skew-value"`
plus the decimal skew plus `".yaml"`; concretely, `openb_node_list_v1.yaml`
with `R = 2` yields `openb_node_list_v1_with_rack-quantity2.yaml` and
`openb_pod_list_v1.yaml` with `S = 3` yields
`openb_pod_list_v1_with_skew-value3.yaml`. -/
theorem claim_c6 :
    (∀ (d : DirInput) (r s : Int) (nf pf : String) (res : ProcOutput),
      globFirst d.files "openb_node_list_" ".yaml" = some nf →
      globFirst d.files "openb_pod_list_" ".yaml" = some pf →
      process_directory d r s = Except.ok res →
      res.failed = false →
      res.outputs.map Prod.fst
        = [pathStem nf ++ "_with_rack-quantity" ++ toString r ++ ".yaml",
           pathStem pf ++ "_with_skew-value" ++ toString s ++ ".yaml"]) ∧
    pathStem "openb_node_list_v1.yaml" ++ "_with_rack-quantity"
        ++ toString (2 : Int) ++ ".yaml"
      = "openb_node_list_v1_with_rack-quantity2.yaml" ∧
    pathStem "openb_pod_list_v1.yaml" ++ "_with_skew-value"
        ++ toString (3 : Int) ++ ".yaml"
      = "openb_pod_list_v1_with_skew-value3.yaml" := by
  refine ⟨?_, rfl, rfl⟩
  intro d r s nf pf res hnf hpf hp hf
  obtain ⟨nf', pf', nodesOut, podsOut, hnf', hpf', _, _, houts⟩ :=
    process_directory_ok hp hf
  rw [hnf] at hnf'
  rw [hpf] at hpf'
  obtain rfl : nf = nf' := by simpa using hnf'
  obtain rfl : pf = pf' := by simpa using hpf'
  rw [houts]
  rfl

/-- C6/C9 witness directory: both expected files present, with one empty
machine record and one pod record as contents. -/
def c6dir : DirInput :=
  ⟨true, ["openb_node_list_v1.yaml", "openb_pod_list_v1.yaml"],
   fun n => if n = "openb_pod_list_v1.yaml" then [[("kind", Yaml.strV "Pod")]] else [[]]⟩

/-- The full output of `process_directory c6dir 2 3`. -/
def c6res : ProcOutput :=
  ⟨false,
   [("openb_node_list_v1_with_rack-quantity2.yaml",
     [[("metadata", Yaml.map [("labels", Yaml.map [(rackKey, Yaml.strV "rack-0")])])]]),
    ("openb_pod_list_v1_with_skew-value3.yaml",
     [[("kind", Yaml.strV "Pod"),
       ("spec", Yaml.map [("topologySpreadConstraints",
         Yaml.arr [constraintObj "topology.kubernetes.io/rack" 3 "ScheduleAnyway"])])]])]⟩

/-- Witness for C6: the concrete run produces exactly the two
parameter-encoded filenames. -/
theorem claim_c6_witness :
    process_directory c6dir 2 3 = Except.ok c6res ∧
    c6res.outputs.map Prod.fst
      = [pathStem "openb_node_list_v1.yaml" ++ "_with_rack-quantity"
           ++ toString (2 : Int) ++ ".yaml",
         pathStem "openb_pod_list_v1.yaml" ++ "_with_skew-value"
           ++ toString (3 : Int) ++ ".yaml"] := by
  have hp : process_directory c6dir 2 3 = Except.ok c6res := rfl
  exact ⟨hp, claim_c6.1 c6dir 2 3 "openb_node_list_v1.yaml"
    "openb_pod_list_v1.yaml" c6res rfl rfl hp rfl⟩

/-- C9: on every successful `process_directory` run, the topology key inside
every injected spread constraint of the workload output equals `rackKey` —
the very string under which `add_rack_labels` stores its rack labels (the
node output records all carry a label at `rackKey`); neither key is a
parameter of `process_directory`. -/
theorem claim_c9 (d : DirInput) (r s : Int) (res : ProcOutput)
    (hp : process_directory d r s = Except.ok res) (hf : res.failed = false) :
    ∃ nn pn nodesOut podsOut,
      res.outputs = [(nn, nodesOut), (pn, podsOut)] ∧
      (∀ nd ∈ nodesOut, ∃ v, getRackValue nd = some v) ∧
      (∀ p ∈ podsOut, isStr (dictGet p "kind") "Pod" = true →
        ∃ cm, getSpread p = some (Yaml.arr [Yaml.map cm]) ∧
          dictGet cm "topologyKey" = some (Yaml.strV rackKey)) := by
  obtain ⟨nf, pf, nodesOut, podsOut, _, _, hnodes, hpods, houts⟩ :=
    process_directory_ok hp hf
  refine ⟨_, _, nodesOut, podsOut, houts, ?_, ?_⟩
  · intro nd hnd
    obtain ⟨⟨j, hj⟩, rfl⟩ := List.mem_iff_get.mp hnd
    obtain ⟨hlen, hpt⟩ := add_rack_labels_ok hnodes
    have hstep := hpt j (by omega) hj
    exact ⟨_, (labelNode_ok hstep).2.1⟩
  · intro p hP hkind
    obtain ⟨⟨j, hj⟩, rfl⟩ := List.mem_iff_get.mp hP
    obtain ⟨hlen, hpt⟩ := add_topology_constraints_ok _ _ hpods
    have hjin : j < (d.content pf).length := by omega
    have hstep := hpt j hjin hj
    obtain ⟨hframe, hspread, _, _⟩ := constrainPod_ok hstep
    have hkind_in : isStr (dictGet ((d.content pf).get ⟨j, hjin⟩) "kind") "Pod"
        = true := by
      rw [← hframe "kind" (by decide)]
      exact hkind
    have hs := hspread hkind_in
    refine ⟨[("maxSkew", Yaml.intV s),
             ("topologyKey", Yaml.strV "topology.kubernetes.io/rack"),
             ("whenUnsatisfiable", Yaml.strV "ScheduleAnyway"),
             ("labelSelector", Yaml.map [])], ?_, ?_⟩
    · simpa [constraintObj] using hs
    · simp [dictGet, rackKey]

/-- Witness for C9 at the concrete directory `c6dir`. -/
theorem claim_c9_witness :
    process_directory c6dir 2 3 = Except.ok c6res ∧
    ∃ nn pn nodesOut podsOut,
      c6res.outputs = [(nn, nodesOut), (pn, podsOut)] ∧
      (∀ nd ∈ nodesOut, ∃ v, getRackValue nd = some v) ∧
      (∀ p ∈ podsOut, isStr (dictGet p "kind") "Pod" = true →
        ∃ cm, getSpread p = some (Yaml.arr [Yaml.map cm]) ∧
          dictGet cm "topologyKey" = some (Yaml.strV rackKey)) :=
  ⟨rfl, claim_c9 c6dir 2 3 c6res rfl rfl⟩

/-- C10: nothing enforces positivity of the rack modulus: on any machine
sequence whose first record is shape-correct, modulus 0 raises an unhandled
`ZeroDivisionError`, and the command line (`argparse` with `type=int`)
accepts 0 and negative integers for both parameters. -/
theorem claim_c10 :
    (∀ (node : Dict) (nodes : List Dict), metadataOk node →
      add_rack_labels (node :: nodes) 0 = Except.error PyErr.zeroDivision) ∧
    cliParseInt "0" = some 0 ∧
    cliParseInt "-5" = some (-5) ∧
    cliParseInt "10" = some 10 := by
  refine ⟨?_, rfl, rfl, rfl⟩
  intro node nodes hmd
  have hok : ∃ md, getMap ((dictGet (dictSetdefault node "metadata"
      (Yaml.map [])) "metadata").getD Yaml.nullV) = Except.ok md := by
    rw [dictGet_dictSetdefault_self]
    cases hy : dictGet node "metadata" with
    | none => exact ⟨[], by simp [getMap]⟩
    | some y =>
      obtain ⟨md, rfl⟩ := hmd y hy
      exact ⟨md, by simp [getMap]⟩
  obtain ⟨md, hmd2⟩ := hok
  show rackLoop 0 (node :: nodes) 0 = Except.error PyErr.zeroDivision
  simp [rackLoop, labelNode, hmd2, pymod]

/-- Witness for C10: the empty record is shape-correct and modulus 0 fails
with the division error. -/
theorem claim_c10_witness :
    metadataOk [] ∧
    add_rack_labels ([[]] : List Dict) 0 = Except.error PyErr.zeroDivision := by
  have hm : metadataOk ([] : Dict) := by
    intro y hy
    simp [dictGet] at hy
  exact ⟨hm, claim_c10.1 [] [] hm⟩
